import Mathlib

set_option maxRecDepth 10000

/-!
Shallow embedding of the unit-algebra and dimensional-analysis engine of the
repository (src/app/conversion/page.tsx and its near-duplicate variants).

The ambient mathjs unit registry/evaluator is modelled by a finite list of
unit definitions: each registered unit symbol carries its base-dimension key
and its conversion factor to the base unit of that dimension (a rational).
A conversion of one unit of `a` into unit `b` (mathjs `math.unit('1 a').to(b)`)
succeeds exactly when both symbols are registered under the same base key, and
yields the quotient of their factors.  Real numbers are modelled by `ℚ`
(the engine's arithmetic is products, quotients and integer powers, so the
floating-point computation is modelled exactly).
-/

namespace Playground

/-- String constants of the source (base-dimension keys, display names,
compound-component suffixes, message fragments), collected here so they can
be reused verbatim in definitions and theorems. -/
def kPRESSURE : String := "PRESSURE"

def kENERGY : String := "ENERGY"

def kPOWER : String := "POWER"

def kSURFACE : String := "SURFACE"

def kAREA : String := "AREA"

def kVOLUME : String := "VOLUME"

def kFORCE : String := "FORCE"

def kLENGTH : String := "LENGTH"

def kMASS : String := "MASS"

def kTIME : String := "TIME"

def dForce : String := "Force"

def dLength : String := "Length"

def dMass : String := "Mass"

def dTime : String := "Time"

def sufForce : String := "_force"

def sufLength : String := "_length"

def sufMass : String := "_mass"

def sufTime : String := "_time"

def uN : String := "N"

def uM : String := "m"

def uKG : String := "kg"

def uS : String := "s"

def msgCannot : String := "Cannot convert "

def msgTo : String := " to "

def msgMissing : String := "Missing required units: "

def msgComma : String := ", "

def msgNoUnits : String := "No units selected"

def msgStar : String := " * "

def msgLParen : String := "("

def msgMid : String := ") / ("

def msgRParen : String := ")"

def msgOneOver : String := "1 / ("

def msgCaret : String := "^"

def msgSpace : String := " "

def msgOne : String := "1 "

/-- A `{ unit, value }` conversion option of the source: a unit symbol together
with a formatted value string such as `"2 joule"`. -/
structure Conv where
  unit : String
  value : String
deriving DecidableEq

/-- An entry of the ambient mathjs unit registry (`math.Unit.UNITS`): the unit
symbol, its base-dimension key (`def.base.key`), and the value of one such unit
expressed in the base unit of its dimension. -/
structure UnitDef where
  name : String
  baseKey : String
  factor : ℚ
deriving DecidableEq

/-- The ambient unit registry, in its enumeration order. -/
abbrev Registry := List UnitDef

/-- One unit component of an evaluated quantity (an element of
`math.Unit.units`): the unit's name, its `base.key`, and its power. -/
structure UComp where
  name : String
  baseKey : String
  power : ℤ
deriving DecidableEq

/-- An evaluated Quantity: the numeric magnitude (`evaluated.toNumber()`), the
unit token of its printed form (`evaluated.toString().split(' ')[1]`, an
oracle for the ambient evaluator's formatting), and its unit components. -/
structure Quantity where
  value : ℚ
  token : String
  units : List UComp
deriving DecidableEq

/-- A `SelectedUnit` of the source: the user's chosen target unit for one base
dimension, with the power it was selected at. -/
structure SelectedUnit where
  baseType : String
  unit : String
  power : ℤ
deriving DecidableEq

/-- A named derived unit: its canonical name, its definition string in base
units, and its conversion options. -/
structure DerivedUnit where
  name : String
  definition : String
  conversions : List Conv
deriving DecidableEq

/-- A `UnitConversion` group of the source: a base dimension, the power it is
displayed at, its conversion options, and the optional derived-unit list
(modelled as a list, empty when absent). -/
structure UnitConversion where
  baseType : String
  power : ℤ
  conversions : List Conv
  derivedUnits : List DerivedUnit := []
deriving DecidableEq

/-- The `dimensionalAnalysis` result record: numeric value, formatted unit
expression, and error message, each possibly absent. -/
structure DimResult where
  numericValue : Option ℚ
  units : Option String
  error : Option String
deriving DecidableEq

/-- Look up a unit symbol in the registry. -/
def findUnit (r : Registry) (n : String) : Option UnitDef :=
  r.find? (fun d => d.name == n)

/-- Model of the source function getCompatibleUnits: every registry symbol whose
`base.key` equals the given key, in registry order. -/
def getCompatibleUnits (r : Registry) (baseType : String) : List String :=
  (r.filter (fun d => d.baseKey == baseType)).map (fun d => d.name)

/-- Model of `math.unit('1 a').to(b).toNumber()`: defined exactly when both
symbols are registered under the same base key; the factor is the quotient of
the one-unit values.  `none` models the thrown conversion error. -/
def convert (r : Registry) (a b : String) : Option ℚ :=
  match findUnit r a, findUnit r b with
  | some da, some db => if da.baseKey == db.baseKey then some (da.factor / db.factor) else none
  | _, _ => none

/-- The leading numeral of a formatted value string
(`conv.value.split(' ')[0]`). -/
def firstWord (s : String) : String :=
  String.mk (s.data.takeWhile (fun c => c ≠ ' '))

/-- Model of JavaScript `String.prototype.endsWith`, phrased on reversed
character lists so that suffix facts reduce well. -/
def strEndsWith (s p : String) : Bool :=
  p.data.reverse == (s.data.reverse.take p.data.reverse.length)

/-- Formatted value string of a converted quantity
(`converted.toString()`): the numeral followed by the unit symbol. -/
def convToString (v : ℚ) (u : String) : String :=
  toString v ++ msgSpace ++ u

/-- Insert a key at the end of the key list unless already present: the
insertion-order behaviour of a JavaScript `Map`'s key set. -/
def insertKey (ks : List String) (k : String) : List String :=
  if k ∈ ks then ks else ks ++ [k]

/-- The distinct leading numerals of a conversion list, in first-occurrence
order: the key set of the source's `valueGroups` map. -/
def groupKeys (cs : List Conv) : List String :=
  cs.foldl (fun ks c => insertKey ks (firstWord c.value)) []

/-- The group of conversions sharing a given leading numeral. -/
def groupFor (cs : List Conv) (k : String) : List Conv :=
  cs.filter (fun c => firstWord c.value == k)

/-- One step of the source's `group.reduce(...)`: keep the current accumulator
unless the next option's unit name is strictly longer. -/
def pickStep (l cur : Conv) : Conv :=
  if cur.unit.length > l.unit.length then cur else l

/-- The source's `group.reduce(...)`: keep the conversion with the strictly
longest unit name, the first encountered winning ties. -/
def pickLongest : List Conv → Option Conv
  | [] => none
  | c :: cs => some (cs.foldl pickStep c)

/-- Model of the source function removeDuplicateConversions: group by leading numeral
(string-compared), keep the longest-named representative per group, in
first-occurrence order of the distinct numerals. -/
def removeDuplicateConversions (cs : List Conv) : List Conv :=
  (groupKeys cs).filterMap (fun k => pickLongest (groupFor cs k))

/-- First-occurrence deduplication of a string list
(JavaScript `[...new Set(xs)]`). -/
def dedupF : List String → List String
  | [] => []
  | k :: ks => k :: (dedupF ks).filter (fun x => x ≠ k)

/-- Structural natural power on `ℚ` (kernel-reducible). -/
def qpowN (x : ℚ) : ℕ → ℚ
  | 0 => 1
  | n + 1 => qpowN x n * x

/-- Structural integer power on `ℚ`: the model of JavaScript `Math.pow`
at integer exponents. -/
def qpow (x : ℚ) : ℤ → ℚ
  | .ofNat n => qpowN x n
  | .negSucc n => (qpowN x (n + 1))⁻¹

/-- The constant `math.unit('1 Pa').to('N/m^2').toNumber() * 1` of the
source's pressure special case: one pascal is exactly one newton per square
meter, so the factor is 1. -/
def pressureToForce : ℚ := 1

/-- Whether a unit string carries one of the synthetic compound-component
suffixes recognised by `getConversionFactor`. -/
def hasCompoundSuffix (u : String) : Bool :=
  strEndsWith u sufForce || strEndsWith u sufLength || strEndsWith u sufMass || strEndsWith u sufTime

/-- Model of the source function getConversionFactor.  A `fromUnit` ending in `_force`,
`_length`, `_mass` or `_time` is dispatched to a conversion of one newton,
meter, kilogram or second into the target unit; otherwise one `fromUnit` is
converted directly.  `none` models the thrown
`Cannot get conversion factor` error. -/
def getConversionFactor (r : Registry) (fromUnit toUnit : String) : Option ℚ :=
  if strEndsWith fromUnit sufForce then
    (convert r uN toUnit).map (fun x => pressureToForce * x)
  else if strEndsWith fromUnit sufLength then
    convert r uM toUnit
  else if strEndsWith fromUnit sufMass then
    convert r uKG toUnit
  else if strEndsWith fromUnit sufTime then
    convert r uS toUnit
  else
    convert r fromUnit toUnit

/-- Lexicographic comparison of character lists, the model of the
JavaScript `localeCompare`-based ordering on the unit strings in scope. -/
def charListLe : List Char → List Char → Bool
  | [], _ => true
  | _ :: _, [] => false
  | a :: as, b :: bs => if a = b then charListLe as bs else decide (a < b)

/-- Lexicographic string comparison. -/
def strLe (a b : String) : Bool :=
  charListLe a.data b.data

/-- Insert into a sorted list in front of the first element that may follow
it (insertion step of a comparator sort). -/
def insertOrd (le : α → α → Bool) (a : α) : List α → List α
  | [] => [a]
  | b :: bs => if le a b then a :: b :: bs else b :: insertOrd le a bs

/-- Comparator sort (the model of JavaScript `Array.prototype.sort` with a
consistent comparator). -/
def sortOrd (le : α → α → Bool) : List α → List α
  | [] => []
  | a :: as => insertOrd le a (sortOrd le as)

/-- Model of the source function getDimensionalExpression: sort the selected units by base
type, split into numerator (positive powers) and denominator (negative
powers), and format the compound expression. -/
def getDimensionalExpression (units : List SelectedUnit) : String :=
  if units.isEmpty then msgNoUnits
  else
    let sorted := sortOrd (fun a b => strLe a.baseType b.baseType) units
    let numerator := sorted.filter (fun u => 0 < u.power)
    let denominator := sorted.filter (fun u => u.power < 0)
    let numeratorStr := String.intercalate msgStar
      (numerator.map (fun u => if u.power == 1 then u.unit else u.unit ++ msgCaret ++ toString u.power))
    let denominatorStr := String.intercalate msgStar
      (denominator.map (fun u => u.unit ++ msgCaret ++ toString u.power.natAbs))
    if numeratorStr ≠ "" ∧ denominatorStr ≠ "" then
      msgLParen ++ numeratorStr ++ msgMid ++ denominatorStr ++ msgRParen
    else if numeratorStr ≠ "" then numeratorStr
    else if denominatorStr ≠ "" then msgOneOver ++ denominatorStr ++ msgRParen
    else msgNoUnits

/-- The source's `new Map(selectedUnits.map(u => [u.baseType, u])).get(key)`:
the last selected unit carrying the given base type wins. -/
def lookupSel (sel : List SelectedUnit) (key : String) : Option SelectedUnit :=
  sel.foldl (fun acc u => if u.baseType == key then some u else acc) none

/-- One optional factor application: multiply the accumulator by
`factor ^ e` when the lookup succeeded, leave it unchanged when the lookup
threw (the source catches and logs the error, then continues). -/
def stepFactor (v : ℚ) (fo : Option ℚ) (e : ℤ) : ℚ :=
  match fo with
  | some f => v * qpow f e
  | none => v

/-- The component loop of `calculateDimensionalAnalysis`.  Compound base
types (PRESSURE, ENERGY, POWER, SURFACE/AREA, VOLUME) are decomposed into
their base factors via the synthetic `_force`/`_length`/`_mass`/`_time`
lookups, each applied only when its dimension is selected and silently
skipped when the lookup fails; any other component aborts with the offending
unit pair when its lookup fails, and is skipped when its dimension has no
selection. -/
def calcLoop (r : Registry) (sel : List SelectedUnit) : List UComp → ℚ → Except (String × String) ℚ
  | [], v => .ok v
  | c :: cs, v =>
    if c.baseKey == kPRESSURE then
      let v1 := match lookupSel sel kFORCE with
        | some u => stepFactor v (getConversionFactor r (c.name ++ sufForce) u.unit) c.power
        | none => v
      let v2 := match lookupSel sel kLENGTH with
        | some u => stepFactor v1 (getConversionFactor r (c.name ++ sufLength) u.unit) (-2 * c.power)
        | none => v1
      calcLoop r sel cs v2
    else if c.baseKey == kENERGY then
      let v1 := match lookupSel sel kMASS with
        | some u => stepFactor v (getConversionFactor r (c.name ++ sufMass) u.unit) c.power
        | none => v
      let v2 := match lookupSel sel kLENGTH with
        | some u => stepFactor v1 (getConversionFactor r (c.name ++ sufLength) u.unit) (2 * c.power)
        | none => v1
      let v3 := match lookupSel sel kTIME with
        | some u => stepFactor v2 (getConversionFactor r (c.name ++ sufTime) u.unit) (-2 * c.power)
        | none => v2
      calcLoop r sel cs v3
    else if c.baseKey == kPOWER then
      let v1 := match lookupSel sel kMASS with
        | some u => stepFactor v (getConversionFactor r (c.name ++ sufMass) u.unit) c.power
        | none => v
      let v2 := match lookupSel sel kLENGTH with
        | some u => stepFactor v1 (getConversionFactor r (c.name ++ sufLength) u.unit) (2 * c.power)
        | none => v1
      let v3 := match lookupSel sel kTIME with
        | some u => stepFactor v2 (getConversionFactor r (c.name ++ sufTime) u.unit) (-3 * c.power)
        | none => v2
      calcLoop r sel cs v3
    else if c.baseKey == kSURFACE || c.baseKey == kAREA then
      let v1 := match lookupSel sel kLENGTH with
        | some u => stepFactor v (getConversionFactor r (c.name ++ sufLength) u.unit) (2 * c.power)
        | none => v
      calcLoop r sel cs v1
    else if c.baseKey == kVOLUME then
      let v1 := match lookupSel sel kLENGTH with
        | some u => stepFactor v (getConversionFactor r (c.name ++ sufLength) u.unit) (3 * c.power)
        | none => v
      calcLoop r sel cs v1
    else
      match lookupSel sel c.baseKey with
      | none => calcLoop r sel cs v
      | some u =>
        match getConversionFactor r c.name u.unit with
        | some f => calcLoop r sel cs (v * qpow f c.power)
        | none => .error (c.name, u.unit)

/-- Model of the source function calculateDimensionalAnalysis: an empty selection yields
the all-`none` record; otherwise the component loop either produces the
final value together with the formatted selection expression, or the
`Cannot convert` error naming the offending unit pair. -/
def calculateDimensionalAnalysis (r : Registry) (q : Quantity) (sel : List SelectedUnit) : DimResult :=
  if sel.isEmpty then ⟨none, none, none⟩
  else
    match calcLoop r sel q.units q.value with
    | .ok v => ⟨some v, some (getDimensionalExpression sel), none⟩
    | .error ft => ⟨none, none, some (msgCannot ++ ft.1 ++ msgTo ++ ft.2)⟩

/-- The per-key requirements of `getMissingUnits`: the selection keys a
component of the given base type requires, each paired with the display name
pushed when it is missing. -/
def requiredOf (k : String) : List (String × String) :=
  if k == kPRESSURE then [(kFORCE, dForce), (kLENGTH, dLength)]
  else if k == kENERGY then [(kMASS, dMass), (kLENGTH, dLength), (kTIME, dTime)]
  else if k == kPOWER then [(kMASS, dMass), (kLENGTH, dLength), (kTIME, dTime)]
  else if k == kSURFACE || k == kAREA then [(kLENGTH, dLength)]
  else if k == kVOLUME then [(kLENGTH, dLength)]
  else [(k, k)]

/-- The names a single component contributes to the missing-units list. -/
def missingOf (selTypes : List String) (k : String) : List String :=
  ((requiredOf k).filter (fun kd => !(selTypes.contains kd.1))).map (fun kd => kd.2)

/-- Model of the source function getMissingUnits: the display names of every required base
dimension with no selection entry, deduplicated in first-occurrence order. -/
def getMissingUnits (q : Quantity) (sel : List SelectedUnit) : List String :=
  let selTypes := sel.map (fun u => u.baseType)
  dedupF ((q.units.map (fun c => missingOf selTypes c.baseKey)).flatten)

/-- The recomposition entry point of the source's `handleUnitSelection`
handler: if any required base dimension is unselected, report the enumerated
missing names and no value; otherwise run `calculateDimensionalAnalysis`. -/
def handleUnitSelection (r : Registry) (q : Quantity) (sel : List SelectedUnit) : DimResult :=
  let missing := getMissingUnits q sel
  if missing.isEmpty then calculateDimensionalAnalysis r q sel
  else ⟨none, none, some (msgMissing ++ String.intercalate msgComma missing)⟩

/-- Model of areUnitsEquivalent inside findDerivedUnits, specialised to the registered
unit tokens in scope: both symbols must parse (be registered), and then either
direction of conversion must succeed, or the two tokens must coincide (for
simple registered tokens the source's base-form normalisation returns the
token itself, so the fallback comparison is token equality). -/
def areUnitsEquivalent (r : Registry) (u1 u2 : String) : Bool :=
  if (findUnit r u1).isSome && (findUnit r u2).isSome then
    (convert r u1 u2).isSome || (convert r u2 u1).isSome || u1 == u2
  else false

/-- The registry scan of `findDerivedUnits`: every registered symbol, other
than the empty symbol and symbols containing the digit `1`, equivalent to the
quantity's printed unit token, in registry order. -/
def equivalentUnitsOf (r : Registry) (q : Quantity) : List String :=
  (r.map (fun d => d.name)).filter
    (fun n => n ≠ "" && !(n.data.contains '1') && areUnitsEquivalent r q.token n)

/-- The main-unit comparator of `findDerivedUnits`: ascending symbol length,
then lexicographic order. -/
def unitNameLe (a b : String) : Bool :=
  if a.length ≠ b.length then a.length < b.length else strLe a b

/-- The canonical main unit: the first element of the equivalent set sorted
by `unitNameLe` (the source's `.sort(...)[0]`). -/
def mainUnitOf (r : Registry) (q : Quantity) : Option String :=
  (sortOrd unitNameLe (equivalentUnitsOf r q)).head?

/-- Model of `evaluated.to(target).toNumber()`: convert the quantity's unit
token and scale by its magnitude. -/
def evalTo (r : Registry) (q : Quantity) (target : String) : Option ℚ :=
  (convert r q.token target).map (fun f => q.value * f)

/-- Model of findDerivedUnits of src/app/conversion/page.tsx.  When a main unit is
selected, part (a) converts the evaluated quantity to every registry symbol
whose base key equals the main unit's *name*, and part (b) converts the
evaluated quantity to every other member of the equivalent set; the
concatenation is returned as-is (this variant applies no deduplication). -/
def findDerivedUnits (r : Registry) (q : Quantity) : List DerivedUnit :=
  match mainUnitOf r q with
  | none => []
  | some m =>
    let directConversions := (getCompatibleUnits r m).filterMap
      (fun cu => (evalTo r q cu).map (fun v => (⟨cu, convToString v cu⟩ : Conv)))
    let equivalentConversions := ((equivalentUnitsOf r q).filter (fun u => u ≠ m)).filterMap
      (fun u => (evalTo r q u).map (fun v => (⟨u, convToString v u⟩ : Conv)))
    let allConversions := directConversions ++ equivalentConversions
    if allConversions.isEmpty then []
    else [⟨m, msgOne ++ m, allConversions⟩]

/-- The conversion options of one unit of `baseU` into every unit compatible
with `dim`, failures skipped. -/
def buildConvs (r : Registry) (baseU dim : String) : List Conv :=
  (getCompatibleUnits r dim).filterMap
    (fun cu => (convert r baseU cu).map (fun f => (⟨cu, convToString f cu⟩ : Conv)))

/-- One decomposed group of the compound special cases of `getConversions`:
the conversions of one base unit into the dimension's compatible units, with
the group's hardcoded power; the group is omitted when no conversion
succeeds. -/
def compoundGroup (r : Registry) (dim baseU : String) (pw : ℤ) : List UnitConversion :=
  let cs := buildConvs r baseU dim
  if cs.isEmpty then [] else [⟨dim, pw, removeDuplicateConversions cs, []⟩]

/-- The generic per-component loop of `getConversions`: one group per unseen
base key, the key marked seen before the unit parse is attempted, groups
skipped for unregistered unit names. -/
def genericLoop (r : Registry) : List UComp → List String → List UnitConversion
  | [], _ => []
  | c :: cs, seen =>
    if seen.contains c.baseKey then genericLoop r cs seen
    else
      match findUnit r c.name with
      | none => genericLoop r cs (c.baseKey :: seen)
      | some _ =>
        ⟨c.baseKey, c.power, removeDuplicateConversions (buildConvs r c.name c.baseKey), []⟩ ::
          genericLoop r cs (c.baseKey :: seen)

/-- The group list of `getConversions` before derived units are attached.
When the *first* component's base key is PRESSURE, ENERGY or POWER, only that
component's fixed decomposition is emitted (with hardcoded powers); otherwise
the generic per-component loop runs over all components. -/
def getConversionsCore (r : Registry) (q : Quantity) : List UnitConversion :=
  match q.units with
  | [] => []
  | c :: cs =>
    if c.baseKey == kPRESSURE then
      compoundGroup r kFORCE uN 1 ++ compoundGroup r kLENGTH uM (-2)
    else if c.baseKey == kENERGY then
      compoundGroup r kMASS uKG 1 ++ compoundGroup r kLENGTH uM 2 ++ compoundGroup r kTIME uS (-2)
    else if c.baseKey == kPOWER then
      compoundGroup r kMASS uKG 1 ++ compoundGroup r kLENGTH uM 2 ++ compoundGroup r kTIME uS (-3)
    else genericLoop r (c :: cs) []

/-- Attach the derived-unit list to the first group, when any exists. -/
def attachDerived (r : Registry) (q : Quantity) : List UnitConversion → List UnitConversion
  | [] => []
  | g :: gs =>
    let ds := findDerivedUnits r q
    if ds.isEmpty then g :: gs else { g with derivedUnits := ds } :: gs

/-- Model of getConversions of src/app/conversion/page.tsx. -/
def getConversions (r : Registry) (q : Quantity) : List UnitConversion :=
  attachDerived r q (getConversionsCore r q)

/-- The numeric value of a digit list, `none` when a non-digit occurs. -/
def digitsVal (l : List Char) : Option ℕ :=
  l.foldl
    (fun acc c => match acc with
      | none => none
      | some n => if c.isDigit then some (10 * n + (c.toNat - 48)) else none)
    (some 0)

/-- Exact rational reading of a plain decimal numeral such as `0.5` or
`0.50`, used to compare leading numerals *numerically* (the notion of the
claim, which the source's string comparison does not implement). -/
def decToRat (s : String) : Option ℚ :=
  let cs := s.data
  let intPart := cs.takeWhile (fun c => c ≠ '.')
  match cs.dropWhile (fun c => c ≠ '.') with
  | [] => (digitsVal intPart).map (fun n => (n : ℚ))
  | _ :: frac =>
    match digitsVal intPart, digitsVal frac with
    | some a, some b =>
      if frac.isEmpty then none
      else some ((a : ℚ) + (b : ℚ) / qpowN 10 frac.length)
    | _, _ => none

/-- A concrete slice of the mathjs registry, with the factors the library
uses (1 lbf = 4.4482216152605 N, 1 ft = 0.3048 m, 1 cal = 4.184 J, ...). -/
def mathjsUnits : Registry :=
  [⟨r"m", r"LENGTH", 1⟩,
   ⟨r"ft", r"LENGTH", 3048 / 10000⟩,
   ⟨r"N", r"FORCE", 1⟩,
   ⟨r"lbf", r"FORCE", 44482216152605 / 10000000000000⟩,
   ⟨r"kg", r"MASS", 1⟩,
   ⟨r"g", r"MASS", 1 / 1000⟩,
   ⟨r"s", r"TIME", 1⟩,
   ⟨r"minute", r"TIME", 60⟩,
   ⟨r"Pa", r"PRESSURE", 1⟩,
   ⟨r"psi", r"PRESSURE", 6894757 / 1000⟩,
   ⟨r"J", r"ENERGY", 1⟩,
   ⟨r"joule", r"ENERGY", 1⟩,
   ⟨r"Nm", r"ENERGY", 1⟩,
   ⟨r"cal", r"ENERGY", 4184 / 1000⟩,
   ⟨r"W", r"POWER", 1⟩]

/-- The quantity `2 N/m^2` as evaluated by mathjs: magnitude 2, printed unit
token `N`, one PRESSURE component of exponent 1 (mathjs reports the compound
`N/m^2` under the pascal's dimension here; the scenario of the spec). -/
def qPressure : Quantity :=
  ⟨2, r"Pa", [⟨r"Pa", r"PRESSURE", 1⟩]⟩

/-- The selection `{FORCE: lbf, LENGTH: ft}` at the powers the pressure
groups carry. -/
def selPressure : List SelectedUnit :=
  [⟨r"FORCE", r"lbf", 1⟩, ⟨r"LENGTH", r"ft", -2⟩]

/-- The quantity `5 kg*m^2/s^2` as evaluated by mathjs: three components
`kg`, `m^2`, `s^-2` classified under MASS, LENGTH and TIME. -/
def qEnergy : Quantity :=
  ⟨5, r"(kg", [⟨r"kg", r"MASS", 1⟩, ⟨r"m", r"LENGTH", 2⟩, ⟨r"s", r"TIME", -2⟩]⟩

/-- A selection for `qEnergy` that misses TIME. -/
def selNoTime : List SelectedUnit :=
  [⟨r"MASS", r"kg", 1⟩, ⟨r"LENGTH", r"m", 2⟩]

/-- The native selection for `qEnergy`: exactly its own units. -/
def selNative : List SelectedUnit :=
  [⟨r"MASS", r"kg", 1⟩, ⟨r"LENGTH", r"m", 2⟩, ⟨r"TIME", r"s", -2⟩]

/-- The quantity `2 Pa^2`: a single PRESSURE component of exponent 2. -/
def qPressureSq : Quantity :=
  ⟨2, r"Pa^2", [⟨r"Pa", r"PRESSURE", 2⟩]⟩

/-- The quantity `1 Pa*s` (dynamic viscosity): a PRESSURE component followed
by a TIME component. -/
def qViscosity : Quantity :=
  ⟨1, r"Pa", [⟨r"Pa", r"PRESSURE", 1⟩, ⟨r"s", r"TIME", 1⟩]⟩

/-- The quantity `2 J`: magnitude 2, token `J`, one ENERGY component. -/
def qJoule : Quantity :=
  ⟨2, r"J", [⟨r"J", r"ENERGY", 1⟩]⟩

/-- A selection pairing FORCE with an unregistered unit symbol. -/
def selBogusForce : List SelectedUnit :=
  [⟨r"FORCE", r"bogus", 1⟩, ⟨r"LENGTH", r"m", -2⟩]

/-- Two conversion options whose leading numerals are numerically equal but
textually different. -/
def dupDemo : List Conv :=
  [⟨r"m", r"0.5 m"⟩, ⟨r"meter", r"0.50 m"⟩]

/-- Two conversion options with string-equal leading numerals, where the
longer unit name should be kept. -/
def dupDemo2 : List Conv :=
  [⟨r"m", r"1 m"⟩, ⟨r"meter", r"1 meter"⟩]

/-- Whether a base key is one of the compound keys special-cased by the
recomposer. -/
def isCompoundKey (k : String) : Bool :=
  k == kPRESSURE || k == kENERGY || k == kPOWER || k == kSURFACE || k == kAREA || k == kVOLUME

/-- First-occurrence deduplication of components by base key, starting from a
set of already-seen keys: the `seenBaseTypes` discipline of the generic loop
of `getConversions` (a key is marked seen even when its component's unit is
unregistered). -/
def dedupSeen : List String → List UComp → List UComp
  | _, [] => []
  | seen, c :: cs =>
    if seen.contains c.baseKey then dedupSeen seen cs
    else c :: dedupSeen (c.baseKey :: seen) cs

/-- First-occurrence deduplication of components by base key. -/
def dedupByKey (l : List UComp) : List UComp :=
  dedupSeen [] l

section BasicLemmas

lemma qpowN_eq_pow (x : ℚ) (n : ℕ) : qpowN x n = x ^ n := by
  induction n with
  | zero => rfl
  | succ n ih => rw [qpowN, ih, pow_succ]

lemma qpow_eq_zpow (x : ℚ) (e : ℤ) : qpow x e = x ^ e := by
  cases e with
  | ofNat n => rw [qpow, qpowN_eq_pow, Int.ofNat_eq_coe, zpow_natCast]
  | negSucc n => rw [qpow, qpowN_eq_pow, zpow_negSucc]

lemma qpow_one (e : ℤ) : qpow 1 e = 1 := by
  rw [qpow_eq_zpow, one_zpow]

lemma convert_self (r : Registry) (n : String) (d : UnitDef)
    (hd : findUnit r n = some d) (h0 : d.factor ≠ 0) : convert r n n = some 1 := by
  rw [convert, hd]
  simp [div_self h0]

lemma lookupSel_aux (k : String) (u : SelectedUnit) :
    ∀ (xs : List SelectedUnit) (acc : Option SelectedUnit),
      xs.foldl (fun acc v => if v.baseType == k then some v else acc) acc = some u →
      acc = some u ∨ (u ∈ xs ∧ u.baseType = k) := by
  intro xs
  induction xs with
  | nil => intro acc h; exact Or.inl h
  | cons x xs ih =>
    intro acc h
    rcases ih (if x.baseType == k then some x else acc) h with h1 | h1
    · by_cases hx : x.baseType == k
      · simp [hx] at h1
        exact Or.inr ⟨by simp [h1.symm], by rw [← h1]; exact (beq_iff_eq.mp hx)⟩
      · simp [hx] at h1
        exact Or.inl h1
    · exact Or.inr ⟨List.mem_cons_of_mem x h1.1, h1.2⟩

lemma lookupSel_mem (sel : List SelectedUnit) (k : String) (u : SelectedUnit)
    (h : lookupSel sel k = some u) : u ∈ sel ∧ u.baseType = k := by
  rcases lookupSel_aux k u sel none h with h1 | h1
  · exact absurd h1 (by simp)
  · exact h1

lemma lookupSel_key_mem (sel : List SelectedUnit) (k : String) (u : SelectedUnit)
    (h : lookupSel sel k = some u) : k ∈ sel.map (fun v => v.baseType) := by
  rcases lookupSel_mem sel k u h with ⟨h1, h2⟩
  exact List.mem_map.mpr ⟨u, h1, h2⟩

lemma lookupSel_nil (k : String) : lookupSel [] k = none := rfl

lemma strEndsWith_append (n suf : String) : strEndsWith (n ++ suf) suf = true := by
  rw [strEndsWith]
  have hd : (n ++ suf).data = n.data ++ suf.data := String.data_append n suf
  rw [hd, List.reverse_append, List.take_left]
  exact beq_self_eq_true _

lemma strEndsWith_disjoint (s p q : String) (k : ℕ)
    (hp : k ≤ p.data.reverse.length) (hq : k ≤ q.data.reverse.length)
    (hne : p.data.reverse.take k ≠ q.data.reverse.take k)
    (h : strEndsWith s p = true) : strEndsWith s q = false := by
  rw [strEndsWith] at h
  have hp' : p.data.reverse = s.data.reverse.take p.data.reverse.length := beq_iff_eq.mp h
  rw [strEndsWith]
  rw [beq_eq_false_iff_ne]
  intro hq'
  apply hne
  rw [hp', hq', List.take_take, List.take_take, Nat.min_eq_left hp, Nat.min_eq_left hq]

end BasicLemmas

section FactorLemmas

lemma map_pressureToForce (o : Option ℚ) :
    o.map (fun x => pressureToForce * x) = o := by
  cases o with
  | none => rfl
  | some v => simp [pressureToForce]

lemma getCF_of_force (r : Registry) (s t : String) (h : strEndsWith s sufForce = true) :
    getConversionFactor r s t = convert r uN t := by
  rw [getConversionFactor, if_pos h, map_pressureToForce]

lemma ends_length_not_force (s : String) (h : strEndsWith s sufLength = true) :
    strEndsWith s sufForce = false :=
  strEndsWith_disjoint s sufLength sufForce 1 (by decide) (by decide) (by decide) h

lemma ends_mass_not_force (s : String) (h : strEndsWith s sufMass = true) :
    strEndsWith s sufForce = false :=
  strEndsWith_disjoint s sufMass sufForce 1 (by decide) (by decide) (by decide) h

lemma ends_mass_not_length (s : String) (h : strEndsWith s sufMass = true) :
    strEndsWith s sufLength = false :=
  strEndsWith_disjoint s sufMass sufLength 1 (by decide) (by decide) (by decide) h

lemma ends_time_not_force (s : String) (h : strEndsWith s sufTime = true) :
    strEndsWith s sufForce = false :=
  strEndsWith_disjoint s sufTime sufForce 2 (by decide) (by decide) (by decide) h

lemma ends_time_not_length (s : String) (h : strEndsWith s sufTime = true) :
    strEndsWith s sufLength = false :=
  strEndsWith_disjoint s sufTime sufLength 1 (by decide) (by decide) (by decide) h

lemma ends_time_not_mass (s : String) (h : strEndsWith s sufTime = true) :
    strEndsWith s sufMass = false :=
  strEndsWith_disjoint s sufTime sufMass 1 (by decide) (by decide) (by decide) h

lemma getCF_of_length (r : Registry) (s t : String) (h : strEndsWith s sufLength = true) :
    getConversionFactor r s t = convert r uM t := by
  rw [getConversionFactor, if_neg (by simp [ends_length_not_force s h]), if_pos h]

lemma getCF_of_mass (r : Registry) (s t : String) (h : strEndsWith s sufMass = true) :
    getConversionFactor r s t = convert r uKG t := by
  rw [getConversionFactor, if_neg (by simp [ends_mass_not_force s h]),
    if_neg (by simp [ends_mass_not_length s h]), if_pos h]

lemma getCF_of_time (r : Registry) (s t : String) (h : strEndsWith s sufTime = true) :
    getConversionFactor r s t = convert r uS t := by
  rw [getConversionFactor, if_neg (by simp [ends_time_not_force s h]),
    if_neg (by simp [ends_time_not_length s h]), if_neg (by simp [ends_time_not_mass s h]),
    if_pos h]

lemma getCF_generic (r : Registry) (s t : String) (h : hasCompoundSuffix s = false) :
    getConversionFactor r s t = convert r s t := by
  rw [hasCompoundSuffix] at h
  simp only [Bool.or_eq_false_iff] at h
  rw [getConversionFactor, if_neg (by simp [h.1.1.1]), if_neg (by simp [h.1.1.2]),
    if_neg (by simp [h.1.2]), if_neg (by simp [h.2])]

end FactorLemmas

section RecomposerLemmas

lemma contains_of_mem (l : List String) (x : String) (h : x ∈ l) : l.contains x = true :=
  List.elem_iff.mpr h

lemma contains_of_not_mem (l : List String) (x : String) (h : x ∉ l) : l.contains x = false := by
  simpa using h

lemma calcLoop_nil (r : Registry) (sel : List SelectedUnit) (v : ℚ) :
    calcLoop r sel [] v = .ok v := rfl

lemma calcLoop_generic (r : Registry) (sel : List SelectedUnit) (c : UComp) (cs : List UComp)
    (v : ℚ) (h : isCompoundKey c.baseKey = false) :
    calcLoop r sel (c :: cs) v =
      match lookupSel sel c.baseKey with
      | none => calcLoop r sel cs v
      | some u =>
        match getConversionFactor r c.name u.unit with
        | some f => calcLoop r sel cs (v * qpow f c.power)
        | none => .error (c.name, u.unit) := by
  rw [isCompoundKey] at h
  simp only [Bool.or_eq_false_iff] at h
  obtain ⟨⟨⟨⟨⟨h1, h2⟩, h3⟩, h4⟩, h5⟩, h6⟩ := h
  simp only [calcLoop, h1, h2, h3, h4, h5, h6, Bool.or_self, if_false, Bool.false_eq_true]

end RecomposerLemmas

/-- Claim C1: a Quantity with a single PRESSURE component of exponent `p`,
recomposed under a Selection with FORCE and LENGTH entries whose one-unit
conversions from newton and meter succeed, yields no error and the value
`magnitude * (N→force)^p * (m→length)^(-2p)`. -/
theorem c1_pressure_recomposition (r : Registry) (mag : ℚ) (tok nm : String) (p : ℤ)
    (sel : List SelectedUnit) (uF uL : SelectedUnit) (fF fL : ℚ)
    (hF : lookupSel sel kFORCE = some uF) (hL : lookupSel sel kLENGTH = some uL)
    (hcF : convert r uN uF.unit = some fF) (hcL : convert r uM uL.unit = some fL) :
    handleUnitSelection r ⟨mag, tok, [⟨nm, kPRESSURE, p⟩]⟩ sel =
      ⟨some (mag * qpow fF p * qpow fL (-2 * p)), some (getDimensionalExpression sel), none⟩ := by
  have hne : sel ≠ [] := by
    intro h
    rw [h, lookupSel_nil] at hF
    exact absurd hF (by simp)
  have hFm : kFORCE ∈ sel.map (fun v => v.baseType) := lookupSel_key_mem sel kFORCE uF hF
  have hLm : kLENGTH ∈ sel.map (fun v => v.baseType) := lookupSel_key_mem sel kLENGTH uL hL
  have hmiss : getMissingUnits ⟨mag, tok, [⟨nm, kPRESSURE, p⟩]⟩ sel = [] := by
    have hc1 : (sel.map (fun v => v.baseType)).contains kFORCE = true := contains_of_mem _ _ hFm
    have hc2 : (sel.map (fun v => v.baseType)).contains kLENGTH = true := contains_of_mem _ _ hLm
    have hreq : requiredOf kPRESSURE = [(kFORCE, dForce), (kLENGTH, dLength)] := rfl
    simp only [getMissingUnits, List.map_cons, List.map_nil, missingOf, hreq,
      List.filter_cons, hc1, hc2, Bool.not_true, List.filter_nil, List.flatten,
      List.append_nil, dedupF]
  have hloop : calcLoop r sel [⟨nm, kPRESSURE, p⟩] mag =
      .ok (mag * qpow fF p * qpow fL (-2 * p)) := by
    simp only [calcLoop, hF, hL, beq_self_eq_true, if_pos]
    rw [getCF_of_force r (nm ++ sufForce) uF.unit (strEndsWith_append nm sufForce), hcF,
      getCF_of_length r (nm ++ sufLength) uL.unit (strEndsWith_append nm sufLength), hcL]
    rfl
  simp only [handleUnitSelection, hmiss, List.isEmpty_nil, if_pos]
  simp only [calculateDimensionalAnalysis, List.isEmpty_eq_true, hne, if_false, hloop]

/-- Witness for C1: the spec's scenario `2 N/m^2` with `{FORCE: lbf,
LENGTH: ft}`, over the concrete registry. -/
theorem c1_witness :
    lookupSel selPressure kFORCE = some ⟨kFORCE, r"lbf", 1⟩ ∧
    lookupSel selPressure kLENGTH = some ⟨kLENGTH, r"ft", -2⟩ ∧
    convert mathjsUnits uN (r"lbf") = some (2000000000000 / 8896443230521) ∧
    convert mathjsUnits uM (r"ft") = some (1250 / 381) ∧
    handleUnitSelection mathjsUnits ⟨2, r"Pa", [⟨r"Pa", kPRESSURE, 1⟩]⟩ selPressure =
      ⟨some (2 * qpow (2000000000000 / 8896443230521) 1 * qpow (1250 / 381) (-2 * 1)),
       some (getDimensionalExpression selPressure), none⟩ :=
  ⟨by decide, by decide, by with_unfolding_all rfl, by with_unfolding_all rfl,
   c1_pressure_recomposition mathjsUnits 2 (r"Pa") (r"Pa") 1 selPressure ⟨kFORCE, r"lbf", 1⟩
     ⟨kLENGTH, r"ft", -2⟩ (2000000000000 / 8896443230521) (1250 / 381)
     (by decide) (by decide) (by with_unfolding_all rfl) (by with_unfolding_all rfl)⟩

section MissingLemmas

lemma mem_dedupF (x : String) : ∀ l : List String, x ∈ dedupF l ↔ x ∈ l := by
  intro l
  induction l with
  | nil => simp [dedupF]
  | cons k ks ih =>
    by_cases hx : x = k
    · subst hx
      simp [dedupF]
    · simp [dedupF, List.mem_filter, hx, ih]

lemma requiredOf_generic (k : String) (h : isCompoundKey k = false) :
    requiredOf k = [(k, k)] := by
  rw [isCompoundKey] at h
  simp only [Bool.or_eq_false_iff] at h
  obtain ⟨⟨⟨⟨⟨h1, h2⟩, h3⟩, h4⟩, h5⟩, h6⟩ := h
  simp only [requiredOf, h1, h2, h3, h4, h5, h6, Bool.or_self, if_false, Bool.false_eq_true]

lemma getMissingUnits_nil (q : Quantity) (sel : List SelectedUnit)
    (h : ∀ c ∈ q.units, missingOf (sel.map (fun v => v.baseType)) c.baseKey = []) :
    getMissingUnits q sel = [] := by
  have hfl : ∀ l : List UComp, (∀ c ∈ l, missingOf (sel.map (fun v => v.baseType)) c.baseKey = []) →
      ((l.map (fun c => missingOf (sel.map (fun v => v.baseType)) c.baseKey)).flatten) = [] := by
    intro l
    induction l with
    | nil => intro _; rfl
    | cons c cs ih =>
      intro hl
      simp only [List.map_cons, List.flatten_cons, hl c (List.mem_cons_self c cs),
        List.nil_append]
      exact ih (fun d hd => hl d (List.mem_cons_of_mem c hd))
  simp only [getMissingUnits, hfl q.units h, dedupF]

lemma missingOf_of_sel (selTypes : List String) (k : String)
    (h : isCompoundKey k = false) (hmem : k ∈ selTypes) :
    missingOf selTypes k = [] := by
  simp only [missingOf, requiredOf_generic k h, List.filter_cons,
    contains_of_mem _ _ hmem, Bool.not_true, List.filter_nil, List.map_nil,
    Bool.false_eq_true, if_false]

end MissingLemmas

/-- Claim C2: whenever some base dimension required by a component of the
Quantity (per the decomposition table `requiredOf`) has no Selection entry,
recomposition reports the enumerated missing display names and produces no
numeric value. -/
theorem c2_missing_units (r : Registry) (q : Quantity) (sel : List SelectedUnit)
    (c : UComp) (kd : String × String) (hc : c ∈ q.units) (hreq : kd ∈ requiredOf c.baseKey)
    (hmiss : kd.1 ∉ sel.map (fun v => v.baseType)) :
    kd.2 ∈ getMissingUnits q sel ∧
      handleUnitSelection r q sel =
        ⟨none, none, some (msgMissing ++ String.intercalate msgComma (getMissingUnits q sel))⟩ := by
  have hmem : kd.2 ∈ getMissingUnits q sel := by
    rw [getMissingUnits, mem_dedupF]
    apply List.mem_flatten.mpr
    refine ⟨missingOf (sel.map (fun v => v.baseType)) c.baseKey, List.mem_map.mpr ⟨c, hc, rfl⟩, ?_⟩
    rw [missingOf]
    apply List.mem_map.mpr
    refine ⟨kd, List.mem_filter.mpr ⟨hreq, ?_⟩, rfl⟩
    rw [contains_of_not_mem _ _ hmiss]
    rfl
  have hne : getMissingUnits q sel ≠ [] := by
    intro h
    rw [h] at hmem
    exact absurd hmem (List.not_mem_nil kd.2)
  have hie : (getMissingUnits q sel).isEmpty = false := by
    cases h : getMissingUnits q sel with
    | nil => exact absurd h hne
    | cons a as => rfl
  refine ⟨hmem, ?_⟩
  simp only [handleUnitSelection, hie, Bool.false_eq_true, if_false]

/-- Witness for C2: the spec's scenario `5 kg*m^2/s^2` with a Selection
missing TIME: the error names TIME and carries no value. -/
theorem c2_witness :
    (⟨r"s", kTIME, -2⟩ : UComp) ∈ qEnergy.units ∧
    ((kTIME, kTIME) : String × String) ∈ requiredOf kTIME ∧
    kTIME ∉ selNoTime.map (fun v => v.baseType) ∧
    (kTIME ∈ getMissingUnits qEnergy selNoTime ∧
      handleUnitSelection mathjsUnits qEnergy selNoTime =
        ⟨none, none, some (msgMissing ++ String.intercalate msgComma (getMissingUnits qEnergy selNoTime))⟩) :=
  ⟨by decide, by decide, by decide,
   c2_missing_units mathjsUnits qEnergy selNoTime ⟨r"s", kTIME, -2⟩ (kTIME, kTIME)
     (by decide) (by decide) (by decide)⟩

/-- Claim C3 (round trip): a Quantity whose components are plain base-dimension
units, recomposed under a Selection assigning to every component's dimension
exactly the component's own unit, returns the original magnitude exactly and
no error. -/
theorem c3_round_trip (r : Registry) (mag : ℚ) (tok : String) (comps : List UComp)
    (sel : List SelectedUnit) (hsel : sel ≠ [])
    (hcomp : ∀ c ∈ comps, isCompoundKey c.baseKey = false ∧ hasCompoundSuffix c.name = false ∧
      (lookupSel sel c.baseKey).map (fun u => u.unit) = some c.name ∧
      convert r c.name c.name = some 1) :
    handleUnitSelection r ⟨mag, tok, comps⟩ sel =
      ⟨some mag, some (getDimensionalExpression sel), none⟩ := by
  have hloop : ∀ v : ℚ, calcLoop r sel comps v = .ok v := by
    induction comps with
    | nil => intro v; rfl
    | cons c cs ih =>
      intro v
      obtain ⟨h1, h2, h3, h4⟩ := hcomp c (List.mem_cons_self c cs)
      obtain ⟨u, hu, huu⟩ := Option.map_eq_some'.mp h3
      have hcf : getConversionFactor r c.name u.unit = some 1 := by
        rw [getCF_generic r c.name u.unit h2, huu, h4]
      rw [calcLoop_generic r sel c cs v h1]
      simp only [hu, hcf, qpow_one, mul_one]
      exact ih (fun d hd => hcomp d (List.mem_cons_of_mem c hd)) v
  have hmiss : getMissingUnits ⟨mag, tok, comps⟩ sel = [] := by
    apply getMissingUnits_nil
    intro c hc
    obtain ⟨h1, _, h3, _⟩ := hcomp c hc
    obtain ⟨u, hu, huu⟩ := Option.map_eq_some'.mp h3
    exact missingOf_of_sel _ _ h1 (lookupSel_key_mem sel c.baseKey u hu)
  simp only [handleUnitSelection, hmiss, List.isEmpty_nil, if_pos]
  simp only [calculateDimensionalAnalysis, List.isEmpty_eq_true, hsel, if_false, hloop mag]

/-- Witness for C3: `5 kg*m^2/s^2` recomposed under `{MASS: kg, LENGTH: m,
TIME: s}` returns exactly 5. -/
theorem c3_witness :
    selNative ≠ [] ∧
    (∀ c ∈ qEnergy.units, isCompoundKey c.baseKey = false ∧ hasCompoundSuffix c.name = false ∧
      (lookupSel selNative c.baseKey).map (fun u => u.unit) = some c.name ∧
      convert mathjsUnits c.name c.name = some 1) ∧
    handleUnitSelection mathjsUnits qEnergy selNative =
      ⟨some 5, some (getDimensionalExpression selNative), none⟩ :=
  ⟨by decide,
   by
    intro c hc
    rcases List.mem_cons.mp hc with h | hc
    · subst h
      exact ⟨rfl, rfl, rfl, by with_unfolding_all rfl⟩
    rcases List.mem_cons.mp hc with h | hc
    · subst h
      exact ⟨rfl, rfl, rfl, by with_unfolding_all rfl⟩
    rcases List.mem_cons.mp hc with h | hc
    · subst h
      exact ⟨rfl, rfl, rfl, by with_unfolding_all rfl⟩
    · exact absurd hc (List.not_mem_nil c),
   c3_round_trip mathjsUnits 5 (r"(kg")
     [⟨r"kg", r"MASS", 1⟩, ⟨r"m", r"LENGTH", 2⟩, ⟨r"s", r"TIME", -2⟩]
     selNative (by decide)
     (by
      intro c hc
      rcases List.mem_cons.mp hc with h | hc
      · subst h
        exact ⟨rfl, rfl, rfl, by with_unfolding_all rfl⟩
      rcases List.mem_cons.mp hc with h | hc
      · subst h
        exact ⟨rfl, rfl, rfl, by with_unfolding_all rfl⟩
      rcases List.mem_cons.mp hc with h | hc
      · subst h
        exact ⟨rfl, rfl, rfl, by with_unfolding_all rfl⟩
      · exact absurd hc (List.not_mem_nil c))⟩

/-- Claim C8 (amended): a failed conversion-factor lookup aborts the
recomposition with an error naming the offending unit pair only when it
occurs for a non-compound component; a failed lookup for a compound
component's decomposed sub-unit is silently skipped (its factor omitted) and
the call still returns a numeric value. -/
theorem c8_amended (r : Registry) :
    (∀ (mag : ℚ) (tok nm : String) (p : ℤ) (sel : List SelectedUnit) (uF uL : SelectedUnit)
        (fL : ℚ),
      lookupSel sel kFORCE = some uF → convert r uN uF.unit = none →
      lookupSel sel kLENGTH = some uL → convert r uM uL.unit = some fL →
      handleUnitSelection r ⟨mag, tok, [⟨nm, kPRESSURE, p⟩]⟩ sel =
        ⟨some (mag * qpow fL (-2 * p)), some (getDimensionalExpression sel), none⟩)
  ∧ (∀ (mag : ℚ) (tok : String) (c : UComp) (sel : List SelectedUnit) (u : SelectedUnit),
      isCompoundKey c.baseKey = false → lookupSel sel c.baseKey = some u →
      getConversionFactor r c.name u.unit = none →
      handleUnitSelection r ⟨mag, tok, [c]⟩ sel =
        ⟨none, none, some (msgCannot ++ c.name ++ msgTo ++ u.unit)⟩) := by
  constructor
  · intro mag tok nm p sel uF uL fL hF hcF hL hcL
    have hne : sel ≠ [] := by
      intro h
      rw [h, lookupSel_nil] at hF
      exact absurd hF (by simp)
    have hFm : kFORCE ∈ sel.map (fun v => v.baseType) := lookupSel_key_mem sel kFORCE uF hF
    have hLm : kLENGTH ∈ sel.map (fun v => v.baseType) := lookupSel_key_mem sel kLENGTH uL hL
    have hmiss : getMissingUnits ⟨mag, tok, [⟨nm, kPRESSURE, p⟩]⟩ sel = [] := by
      have hc1 : (sel.map (fun v => v.baseType)).contains kFORCE = true := contains_of_mem _ _ hFm
      have hc2 : (sel.map (fun v => v.baseType)).contains kLENGTH = true :=
        contains_of_mem _ _ hLm
      have hreq : requiredOf kPRESSURE = [(kFORCE, dForce), (kLENGTH, dLength)] := rfl
      simp only [getMissingUnits, List.map_cons, List.map_nil, missingOf, hreq,
        List.filter_cons, hc1, hc2, Bool.not_true, List.filter_nil, List.flatten,
        List.append_nil, dedupF]
    have hloop : calcLoop r sel [⟨nm, kPRESSURE, p⟩] mag = .ok (mag * qpow fL (-2 * p)) := by
      simp only [calcLoop, hF, hL, beq_self_eq_true, if_pos]
      rw [getCF_of_force r (nm ++ sufForce) uF.unit (strEndsWith_append nm sufForce), hcF,
        getCF_of_length r (nm ++ sufLength) uL.unit (strEndsWith_append nm sufLength), hcL]
      rfl
    simp only [handleUnitSelection, hmiss, List.isEmpty_nil, if_pos]
    simp only [calculateDimensionalAnalysis, List.isEmpty_eq_true, hne, if_false, hloop]
  · intro mag tok c sel u hk hu hcf
    have hne : sel ≠ [] := by
      intro h
      rw [h, lookupSel_nil] at hu
      exact absurd hu (by simp)
    have hmiss : getMissingUnits ⟨mag, tok, [c]⟩ sel = [] := by
      apply getMissingUnits_nil
      intro d hd
      rcases List.mem_cons.mp hd with h | h
      · subst h
        exact missingOf_of_sel _ _ hk (lookupSel_key_mem sel d.baseKey u hu)
      · exact absurd h (List.not_mem_nil d)
    have hloop : calcLoop r sel [c] mag = .error (c.name, u.unit) := by
      rw [calcLoop_generic r sel c [] mag hk]
      simp only [hu, hcf]
    simp only [handleUnitSelection, hmiss, List.isEmpty_nil, if_pos]
    simp only [calculateDimensionalAnalysis, List.isEmpty_eq_true, hne, if_false, hloop]

/-- Witness for C8: both halves of the amended claim at concrete inputs
(`1 Pa` with an unregistered force unit, and `3 m` with an unregistered
length unit). -/
theorem c8_witness :
    handleUnitSelection mathjsUnits ⟨2, r"Pa", [⟨r"Pa", kPRESSURE, 1⟩]⟩ selBogusForce =
      ⟨some (2 * qpow 1 (-2 * 1)), some (getDimensionalExpression selBogusForce), none⟩ ∧
    handleUnitSelection mathjsUnits ⟨3, r"m", [⟨r"m", kLENGTH, 1⟩]⟩ [⟨kLENGTH, r"bogus", 1⟩] =
      ⟨none, none, some (msgCannot ++ r"m" ++ msgTo ++ r"bogus")⟩ :=
  ⟨(c8_amended mathjsUnits).1 2 (r"Pa") (r"Pa") 1 selBogusForce ⟨kFORCE, r"bogus", 1⟩
     ⟨kLENGTH, r"m", -2⟩ 1 (by decide) (by with_unfolding_all rfl) (by decide)
     (by with_unfolding_all rfl),
   (c8_amended mathjsUnits).2 3 (r"m") ⟨r"m", kLENGTH, 1⟩ [⟨kLENGTH, r"bogus", 1⟩]
     ⟨kLENGTH, r"bogus", 1⟩ (by decide) (by decide) (by with_unfolding_all rfl)⟩

/-- Counterexample to C8 as stated: for `1 Pa` (a compound PRESSURE
component) under `{FORCE: bogus, LENGTH: m}` the force-factor lookup fails,
yet the recomposition returns a numeric value and no error instead of
aborting with an error naming the pair. -/
theorem c8_counterexample :
    getConversionFactor mathjsUnits (r"Pa_force") (r"bogus") = none ∧
    handleUnitSelection mathjsUnits qPressure selBogusForce =
      ⟨some 2, some (r"(bogus) / (m^2)"), none⟩ :=
  ⟨by with_unfolding_all rfl, by with_unfolding_all rfl⟩

/-- Claim C10: for a `fromUnit` ending in `_force`, `_length`, `_mass` or
`_time`, the conversion-factor lookup depends only on that suffix and the
target unit: it equals the conversion of 1 N, 1 m, 1 kg or 1 s respectively
into the target, and the unit name preceding the suffix has no effect. -/
theorem c10_suffix_only (r : Registry) (s t : String) :
    (strEndsWith s sufForce = true → getConversionFactor r s t = convert r uN t)
  ∧ (strEndsWith s sufLength = true → getConversionFactor r s t = convert r uM t)
  ∧ (strEndsWith s sufMass = true → getConversionFactor r s t = convert r uKG t)
  ∧ (strEndsWith s sufTime = true → getConversionFactor r s t = convert r uS t) :=
  ⟨fun h => getCF_of_force r s t h, fun h => getCF_of_length r s t h,
   fun h => getCF_of_mass r s t h, fun h => getCF_of_time r s t h⟩

/-- Witness for C10: `Pa_force` and `psi_force` both give the 1 N conversion,
independent of the name before the suffix. -/
theorem c10_witness :
    (strEndsWith (r"Pa_force") sufForce = true ∧
      getConversionFactor mathjsUnits (r"Pa_force") (r"lbf") = convert mathjsUnits uN (r"lbf")) ∧
    (strEndsWith (r"psi_force") sufForce = true ∧
      getConversionFactor mathjsUnits (r"psi_force") (r"lbf") = convert mathjsUnits uN (r"lbf")) ∧
    (strEndsWith (r"J_time") sufTime = true ∧
      getConversionFactor mathjsUnits (r"J_time") (r"minute") = convert mathjsUnits uS (r"minute")) :=
  ⟨⟨by decide, (c10_suffix_only mathjsUnits (r"Pa_force") (r"lbf")).1 (by decide)⟩,
   ⟨by decide, (c10_suffix_only mathjsUnits (r"psi_force") (r"lbf")).1 (by decide)⟩,
   ⟨by decide, (c10_suffix_only mathjsUnits (r"J_time") (r"minute")).2.2.2 (by decide)⟩⟩

section BuilderLemmas

lemma compoundGroup_mem (r : Registry) (dim baseU : String) (pw : ℤ) (g : UnitConversion)
    (h : g ∈ compoundGroup r dim baseU pw) : g.baseType = dim ∧ g.power = pw := by
  simp only [compoundGroup] at h
  split at h
  · exact absurd h (List.not_mem_nil g)
  · rw [List.mem_singleton.mp h]
    exact ⟨rfl, rfl⟩

lemma genericLoop_from (r : Registry) :
    ∀ (comps : List UComp) (seen : List String) (g : UnitConversion),
      g ∈ genericLoop r comps seen → ∃ c ∈ comps, g.baseType = c.baseKey ∧ g.power = c.power := by
  intro comps
  induction comps with
  | nil => intro seen g h; exact absurd h (List.not_mem_nil g)
  | cons c cs ih =>
    intro seen g h
    simp only [genericLoop] at h
    split at h
    · obtain ⟨d, hd, hg⟩ := ih seen g h
      exact ⟨d, List.mem_cons_of_mem c hd, hg⟩
    · split at h
      · obtain ⟨d, hd, hg⟩ := ih (c.baseKey :: seen) g h
        exact ⟨d, List.mem_cons_of_mem c hd, hg⟩
      · rcases List.mem_cons.mp h with h1 | h1
        · subst h1
          exact ⟨c, List.mem_cons_self c cs, rfl, rfl⟩
        · obtain ⟨d, hd, hg⟩ := ih (c.baseKey :: seen) g h1
          exact ⟨d, List.mem_cons_of_mem c hd, hg⟩

lemma genericLoop_eq (r : Registry) :
    ∀ (comps : List UComp) (seen : List String),
      genericLoop r comps seen =
        ((dedupSeen seen comps).filter (fun u => (findUnit r u.name).isSome)).map
          (fun u => ⟨u.baseKey, u.power, removeDuplicateConversions (buildConvs r u.name u.baseKey), []⟩) := by
  intro comps
  induction comps with
  | nil => intro seen; rfl
  | cons c cs ih =>
    intro seen
    simp only [genericLoop, dedupSeen]
    cases hc : seen.contains c.baseKey with
    | true => simp only [if_pos, ih seen]
    | false =>
      simp only [Bool.false_eq_true, if_false, List.filter_cons]
      cases hf : findUnit r c.name with
      | none => simp only [Option.isSome_none, Bool.false_eq_true, if_false, ih (c.baseKey :: seen)]
      | some d => simp only [Option.isSome_some, if_pos, List.map_cons, ih (c.baseKey :: seen)]

lemma attachDerived_map_pair (r : Registry) (q : Quantity) (gs : List UnitConversion) :
    (attachDerived r q gs).map (fun g => (g.baseType, g.power)) =
      gs.map (fun g => (g.baseType, g.power)) := by
  cases gs with
  | nil => rfl
  | cons g rest =>
    simp only [attachDerived]
    split
    · rfl
    · rfl

lemma attachDerived_map_baseType (r : Registry) (q : Quantity) (gs : List UnitConversion) :
    (attachDerived r q gs).map (fun g => g.baseType) = gs.map (fun g => g.baseType) := by
  cases gs with
  | nil => rfl
  | cons g rest =>
    simp only [attachDerived]
    split
    · rfl
    · rfl

lemma attachDerived_congr (r : Registry) (q1 q2 : Quantity)
    (h : findDerivedUnits r q1 = findDerivedUnits r q2) (gs : List UnitConversion) :
    attachDerived r q1 gs = attachDerived r q2 gs := by
  cases gs with
  | nil => rfl
  | cons g rest => simp only [attachDerived, h]

end BuilderLemmas

/-- Claim C4 (amended): the generic groups carry exactly the originating
component's exponent, but for a first component of compound base key
(PRESSURE, ENERGY, POWER) the decomposed groups carry the fixed exponents of
the exponent-1 decomposition table, regardless of the component's own
exponent. -/
theorem c4_amended (r : Registry) (mag : ℚ) (tok : String) (c : UComp) (cs : List UComp) :
    (c.baseKey = kPRESSURE →
      ∀ bp ∈ (getConversions r ⟨mag, tok, c :: cs⟩).map (fun g => (g.baseType, g.power)),
        bp ∈ [(kFORCE, (1 : ℤ)), (kLENGTH, (-2 : ℤ))])
  ∧ (c.baseKey = kENERGY →
      ∀ bp ∈ (getConversions r ⟨mag, tok, c :: cs⟩).map (fun g => (g.baseType, g.power)),
        bp ∈ [(kMASS, (1 : ℤ)), (kLENGTH, (2 : ℤ)), (kTIME, (-2 : ℤ))])
  ∧ (c.baseKey = kPOWER →
      ∀ bp ∈ (getConversions r ⟨mag, tok, c :: cs⟩).map (fun g => (g.baseType, g.power)),
        bp ∈ [(kMASS, (1 : ℤ)), (kLENGTH, (2 : ℤ)), (kTIME, (-3 : ℤ))])
  ∧ (c.baseKey ≠ kPRESSURE → c.baseKey ≠ kENERGY → c.baseKey ≠ kPOWER →
      ∀ bp ∈ (getConversions r ⟨mag, tok, c :: cs⟩).map (fun g => (g.baseType, g.power)),
        ∃ u ∈ c :: cs, bp = (u.baseKey, u.power)) := by
  refine ⟨?_, ?_, ?_, ?_⟩
  · intro h bp hbp
    rw [getConversions, attachDerived_map_pair] at hbp
    simp only [getConversionsCore, h, beq_self_eq_true, if_pos] at hbp
    obtain ⟨g, hg, hgp⟩ := List.mem_map.mp hbp
    rcases List.mem_append.mp hg with h1 | h1
    · obtain ⟨e1, e2⟩ := compoundGroup_mem r kFORCE uN 1 g h1
      rw [← hgp, e1, e2]
      exact List.mem_cons_self _ _
    · obtain ⟨e1, e2⟩ := compoundGroup_mem r kLENGTH uM (-2) g h1
      rw [← hgp, e1, e2]
      exact List.mem_cons_of_mem _ (List.mem_cons_self _ _)
  · intro h bp hbp
    rw [getConversions, attachDerived_map_pair] at hbp
    simp only [getConversionsCore, h, beq_self_eq_true, if_pos] at hbp
    obtain ⟨g, hg, hgp⟩ := List.mem_map.mp hbp
    rcases List.mem_append.mp hg with h1 | h1
    rcases List.mem_append.mp h1 with h2 | h2
    · obtain ⟨e1, e2⟩ := compoundGroup_mem r kMASS uKG 1 g h2
      rw [← hgp, e1, e2]
      exact List.mem_cons_self _ _
    · obtain ⟨e1, e2⟩ := compoundGroup_mem r kLENGTH uM 2 g h2
      rw [← hgp, e1, e2]
      exact List.mem_cons_of_mem _ (List.mem_cons_self _ _)
    · obtain ⟨e1, e2⟩ := compoundGroup_mem r kTIME uS (-2) g h1
      rw [← hgp, e1, e2]
      exact List.mem_cons_of_mem _ (List.mem_cons_of_mem _ (List.mem_cons_self _ _))
  · intro h bp hbp
    rw [getConversions, attachDerived_map_pair] at hbp
    simp only [getConversionsCore, h, beq_self_eq_true, if_pos] at hbp
    obtain ⟨g, hg, hgp⟩ := List.mem_map.mp hbp
    rcases List.mem_append.mp hg with h1 | h1
    rcases List.mem_append.mp h1 with h2 | h2
    · obtain ⟨e1, e2⟩ := compoundGroup_mem r kMASS uKG 1 g h2
      rw [← hgp, e1, e2]
      exact List.mem_cons_self _ _
    · obtain ⟨e1, e2⟩ := compoundGroup_mem r kLENGTH uM 2 g h2
      rw [← hgp, e1, e2]
      exact List.mem_cons_of_mem _ (List.mem_cons_self _ _)
    · obtain ⟨e1, e2⟩ := compoundGroup_mem r kTIME uS (-3) g h1
      rw [← hgp, e1, e2]
      exact List.mem_cons_of_mem _ (List.mem_cons_of_mem _ (List.mem_cons_self _ _))
  · intro h1 h2 h3 bp hbp
    rw [getConversions, attachDerived_map_pair] at hbp
    simp only [getConversionsCore, beq_eq_false_iff_ne.mpr h1, beq_eq_false_iff_ne.mpr h2,
      beq_eq_false_iff_ne.mpr h3, Bool.false_eq_true, if_false] at hbp
    obtain ⟨g, hg, hgp⟩ := List.mem_map.mp hbp
    obtain ⟨u, hu, e1, e2⟩ := genericLoop_from r (c :: cs) [] g hg
    exact ⟨u, hu, by rw [← hgp, e1, e2]⟩

/-- Counterexample to C4 as stated: for `2 Pa^2` (PRESSURE component of
exponent 2) the builder emits groups with exponents 1 and −2, not the
claimed 2 and −4. -/
theorem c4_counterexample :
    (getConversions mathjsUnits qPressureSq).map (fun g => (g.baseType, g.power)) =
      [(kFORCE, 1), (kLENGTH, -2)] ∧
    [(kFORCE, (1 : ℤ)), (kLENGTH, (-2 : ℤ))] ≠ [(kFORCE, 2), (kLENGTH, -4)] :=
  ⟨by with_unfolding_all rfl, by decide⟩

/-- Witness for C4: the generic branch on `5 kg*m^2/s^2` — the LENGTH group's
pair (LENGTH, 2) originates in the `m^2` component. -/
theorem c4_witness :
    ∃ u ∈ [(⟨r"kg", r"MASS", 1⟩ : UComp), ⟨r"m", r"LENGTH", 2⟩, ⟨r"s", r"TIME", -2⟩],
      ((kLENGTH, (2 : ℤ)) : String × ℤ) = (u.baseKey, u.power) := by
  have h := (c4_amended mathjsUnits 5 (r"(kg") ⟨r"kg", r"MASS", 1⟩
    [⟨r"m", r"LENGTH", 2⟩, ⟨r"s", r"TIME", -2⟩]).2.2.2 (by decide) (by decide) (by decide)
  apply h (kLENGTH, 2)
  have e : (getConversions mathjsUnits
      ⟨5, r"(kg", [⟨r"kg", r"MASS", 1⟩, ⟨r"m", r"LENGTH", 2⟩, ⟨r"s", r"TIME", -2⟩]⟩).map
        (fun g => (g.baseType, g.power)) = [(kMASS, 1), (kLENGTH, 2), (kTIME, -2)] := by
    with_unfolding_all rfl
  rw [e]
  decide

/-- Claim C5 (amended): when the first component's base key is PRESSURE,
ENERGY or POWER, only that component is decomposed and all later components
are ignored; otherwise the builder emits one group per distinct base key in
first-occurrence order, restricted to components whose unit name is
registered. -/
theorem c5_amended (r : Registry) (mag : ℚ) (tok : String) (c : UComp) (cs : List UComp) :
    ((c.baseKey = kPRESSURE ∨ c.baseKey = kENERGY ∨ c.baseKey = kPOWER) →
      getConversions r ⟨mag, tok, c :: cs⟩ = getConversions r ⟨mag, tok, [c]⟩)
  ∧ (c.baseKey ≠ kPRESSURE → c.baseKey ≠ kENERGY → c.baseKey ≠ kPOWER →
      (getConversions r ⟨mag, tok, c :: cs⟩).map (fun g => g.baseType) =
        ((dedupByKey (c :: cs)).filter (fun u => (findUnit r u.name).isSome)).map
          (fun u => u.baseKey)) := by
  constructor
  · intro h
    have hfd : findDerivedUnits r ⟨mag, tok, c :: cs⟩ = findDerivedUnits r ⟨mag, tok, [c]⟩ := rfl
    have hcore : getConversionsCore r ⟨mag, tok, c :: cs⟩ =
        getConversionsCore r ⟨mag, tok, [c]⟩ := by
      rcases h with h | h | h <;>
        simp only [getConversionsCore, h, beq_self_eq_true, if_pos]
    rw [getConversions, getConversions, hcore, attachDerived_congr r _ _ hfd]
  · intro h1 h2 h3
    rw [getConversions, attachDerived_map_baseType]
    simp only [getConversionsCore, beq_eq_false_iff_ne.mpr h1, beq_eq_false_iff_ne.mpr h2,
      beq_eq_false_iff_ne.mpr h3, Bool.false_eq_true, if_false]
    rw [genericLoop_eq, dedupByKey, List.map_map]
    rfl

/-- Counterexample to C5 as stated: for `1 Pa*s` the TIME component
contributes nothing — the output holds only the FORCE and LENGTH groups of
the pressure decomposition. -/
theorem c5_counterexample :
    (getConversions mathjsUnits qViscosity).map (fun g => g.baseType) = [kFORCE, kLENGTH] ∧
    kTIME ∉ [kFORCE, kLENGTH] :=
  ⟨by with_unfolding_all rfl, by decide⟩

/-- Witness for C5: with a PRESSURE first component, appending a TIME
component leaves the builder's output unchanged. -/
theorem c5_witness :
    getConversions mathjsUnits ⟨1, r"Pa", [⟨r"Pa", r"PRESSURE", 1⟩, ⟨r"s", r"TIME", 1⟩]⟩ =
      getConversions mathjsUnits ⟨1, r"Pa", [⟨r"Pa", r"PRESSURE", 1⟩]⟩ :=
  (c5_amended mathjsUnits 1 (r"Pa") ⟨r"Pa", r"PRESSURE", 1⟩ [⟨r"s", r"TIME", 1⟩]).1 (Or.inl rfl)

section SortLemmas

lemma charListLe_refl : ∀ l : List Char, charListLe l l = true
  | [] => rfl
  | a :: as => by
    simp only [charListLe, if_pos rfl]
    exact charListLe_refl as

lemma charListLe_total : ∀ a b : List Char, charListLe a b = false → charListLe b a = true
  | [], b => by
    intro h
    exact absurd h (by simp [charListLe])
  | a :: as, [] => fun _ => rfl
  | a :: as, b :: bs => by
    intro h
    simp only [charListLe] at h ⊢
    by_cases hab : a = b
    · subst hab
      rw [if_pos rfl] at h ⊢
      exact charListLe_total as bs h
    · rw [if_neg hab] at h
      rw [if_neg (Ne.symm hab)]
      have hnlt : ¬ a < b := by simpa using h
      refine decide_eq_true ?_
      rcases lt_trichotomy a b with h1 | h1 | h1
      · exact absurd h1 hnlt
      · exact absurd h1 hab
      · exact h1

lemma charListLe_trans :
    ∀ a b c : List Char, charListLe a b = true → charListLe b c = true → charListLe a c = true
  | [], _, c => fun _ _ => by cases c <;> rfl
  | a :: as, [], _ => fun h _ => absurd h (by simp [charListLe])
  | a :: as, b :: bs, [] => fun _ h => absurd h (by simp [charListLe])
  | a :: as, b :: bs, c :: cs => by
    intro h1 h2
    simp only [charListLe] at h1 h2 ⊢
    by_cases hab : a = b
    · subst hab
      rw [if_pos rfl] at h1
      by_cases hbc : a = c
      · subst hbc
        rw [if_pos rfl] at h2 ⊢
        exact charListLe_trans as bs cs h1 h2
      · rw [if_neg hbc] at h2 ⊢
        exact h2
    · rw [if_neg hab] at h1
      have hlt1 : a < b := of_decide_eq_true h1
      by_cases hbc : b = c
      · subst hbc
        rw [if_neg hab]
        exact h1
      · rw [if_neg hbc] at h2
        have hlt2 : b < c := of_decide_eq_true h2
        have hac : a < c := lt_trans hlt1 hlt2
        rw [if_neg (ne_of_lt hac)]
        exact decide_eq_true hac

lemma unitNameLe_refl (a : String) : unitNameLe a a = true := by
  simp only [unitNameLe, ne_eq, not_true_eq_false, if_false, strLe]
  exact charListLe_refl a.data

lemma unitNameLe_total (a b : String) (h : unitNameLe a b = false) : unitNameLe b a = true := by
  simp only [unitNameLe, strLe] at h ⊢
  by_cases hl : a.length = b.length
  · rw [if_neg (fun hn => hn hl)] at h
    rw [if_neg (fun hn => hn hl.symm)]
    exact charListLe_total a.data b.data h
  · rw [if_pos hl] at h
    rw [if_pos (Ne.symm hl)]
    have hnlt : ¬ a.length < b.length := by simpa using h
    exact decide_eq_true (by omega)

lemma unitNameLe_trans (a b c : String) (h1 : unitNameLe a b = true)
    (h2 : unitNameLe b c = true) : unitNameLe a c = true := by
  simp only [unitNameLe, strLe] at h1 h2 ⊢
  by_cases hab : a.length = b.length <;> by_cases hbc : b.length = c.length
  · rw [if_neg (fun hn => hn hab)] at h1
    rw [if_neg (fun hn => hn hbc)] at h2
    rw [if_neg (fun hn => hn (hab.trans hbc))]
    exact charListLe_trans a.data b.data c.data h1 h2
  · rw [if_pos hbc] at h2
    have hlt : b.length < c.length := of_decide_eq_true h2
    rw [if_pos (by omega)]
    exact decide_eq_true (by omega)
  · rw [if_pos hab] at h1
    have hlt : a.length < b.length := of_decide_eq_true h1
    rw [if_pos (by omega)]
    exact decide_eq_true (by omega)
  · rw [if_pos hab] at h1
    rw [if_pos hbc] at h2
    have hlt1 : a.length < b.length := of_decide_eq_true h1
    have hlt2 : b.length < c.length := of_decide_eq_true h2
    rw [if_pos (by omega)]
    exact decide_eq_true (by omega)

lemma mem_insertOrd (le : α → α → Bool) (a x : α) :
    ∀ l : List α, x ∈ insertOrd le a l ↔ x = a ∨ x ∈ l := by
  intro l
  induction l with
  | nil => simp [insertOrd]
  | cons b bs ih =>
    simp only [insertOrd]
    split
    · simp [List.mem_cons]
    · simp only [List.mem_cons, ih]
      tauto

lemma mem_sortOrd (le : α → α → Bool) (x : α) :
    ∀ l : List α, x ∈ sortOrd le l ↔ x ∈ l := by
  intro l
  induction l with
  | nil => simp [sortOrd]
  | cons a as ih =>
    simp only [sortOrd, mem_insertOrd, ih, List.mem_cons]

lemma sortOrd_head_le (le : α → α → Bool)
    (href : ∀ a : α, le a a = true)
    (htot : ∀ a b : α, le a b = false → le b a = true)
    (htr : ∀ a b c : α, le a b = true → le b c = true → le a c = true) :
    ∀ (l : List α) (m : α) (rest : List α),
      sortOrd le l = m :: rest → ∀ x ∈ l, le m x = true := by
  intro l
  induction l with
  | nil => intro m rest h; exact absurd h (by simp [sortOrd])
  | cons a as ih =>
    intro m rest h x hx
    rw [sortOrd] at h
    cases hs : sortOrd le as with
    | nil =>
      rw [hs] at h
      simp only [insertOrd] at h
      injection h with h1 h2
      subst h1
      rcases List.mem_cons.mp hx with h3 | h3
      · subst h3
        exact href x
      · have : x ∈ sortOrd le as := (mem_sortOrd le x as).mpr h3
        rw [hs] at this
        exact absurd this (List.not_mem_nil x)
    | cons b bs =>
      rw [hs] at h
      simp only [insertOrd] at h
      by_cases hab : le a b = true
      · rw [if_pos hab] at h
        injection h with h1 h2
        subst h1
        rcases List.mem_cons.mp hx with h3 | h3
        · subst h3
          exact href x
        · exact htr a b x hab (ih b bs hs x h3)
      · rw [if_neg hab] at h
        injection h with h1 h2
        subst h1
        have hab' : le a b = false := by simpa using hab
        rcases List.mem_cons.mp hx with h3 | h3
        · subst h3
          exact htot x b hab'
        · exact ih b bs hs x h3

end SortLemmas

/-- Claim C9: whenever the equivalent-unit scan is non-empty, the canonical
main unit chosen by `findDerivedUnits` is a member of the equivalent set that
is minimal under ascending symbol length with lexicographic tie-break. -/
theorem c9_main_unit (r : Registry) (q : Quantity) (m : String)
    (h : mainUnitOf r q = some m) :
    m ∈ equivalentUnitsOf r q ∧ ∀ x ∈ equivalentUnitsOf r q, unitNameLe m x = true := by
  rw [mainUnitOf] at h
  cases hs : sortOrd unitNameLe (equivalentUnitsOf r q) with
  | nil =>
    rw [hs] at h
    exact absurd h (by simp)
  | cons b bs =>
    rw [hs] at h
    simp only [List.head?_cons, Option.some.injEq] at h
    subst h
    constructor
    · have : b ∈ sortOrd unitNameLe (equivalentUnitsOf r q) := by
        rw [hs]
        exact List.mem_cons_self b bs
      exact (mem_sortOrd unitNameLe b (equivalentUnitsOf r q)).mp this
    · exact sortOrd_head_le unitNameLe unitNameLe_refl unitNameLe_total unitNameLe_trans
        (equivalentUnitsOf r q) b bs hs

/-- Witness for C9: on a Quantity with joule's token the scan selects `J`,
which indeed belongs to the equivalent set. -/
theorem c9_witness : (r"J" : String) ∈ equivalentUnitsOf mathjsUnits qJoule :=
  (c9_main_unit mathjsUnits qJoule (r"J") (by decide)).1

/-- Claim C6 (amended): when a main unit is selected, the returned
DerivedUnit's conversions list is the concatenation of (a) conversions of the
*evaluated quantity* to every registry unit whose base key equals the main
unit's name and (b) conversions of the evaluated quantity to every other
member of the equivalent set, returned *without* deduplication. -/
theorem c6_amended (r : Registry) (q : Quantity) (m : String)
    (h : mainUnitOf r q = some m) :
    ∀ d ∈ findDerivedUnits r q,
      d.name = m ∧ d.definition = msgOne ++ m ∧
      d.conversions =
        (getCompatibleUnits r m).filterMap
          (fun cu => (evalTo r q cu).map (fun v => (⟨cu, convToString v cu⟩ : Conv))) ++
        ((equivalentUnitsOf r q).filter (fun u => u ≠ m)).filterMap
          (fun u => (evalTo r q u).map (fun v => (⟨u, convToString v u⟩ : Conv))) := by
  intro d hd
  rw [findDerivedUnits, h] at hd
  dsimp only at hd
  split at hd
  · exact absurd hd (List.not_mem_nil d)
  · rw [List.mem_singleton.mp hd]
    exact ⟨rfl, rfl, rfl⟩

/-- Counterexample to C6 as stated: on `2 J` over the concrete registry the
returned conversions convert the evaluated magnitude (2), not one unit of
the main unit (whose joule conversion would be 1), and two entries share the
leading numeral `2` — so the union was not deduplicated. -/
theorem c6_counterexample :
    findDerivedUnits mathjsUnits qJoule =
      [⟨r"J", r"1 J", [⟨r"joule", r"2 joule"⟩, ⟨r"Nm", r"2 Nm"⟩, ⟨r"cal", r"250/523 cal"⟩]⟩] ∧
    firstWord (r"2 joule") = firstWord (r"2 Nm") ∧
    convert mathjsUnits (r"J") (r"joule") = some 1 ∧
    evalTo mathjsUnits qJoule (r"joule") = some 2 :=
  ⟨by with_unfolding_all rfl, by decide, by with_unfolding_all rfl, by with_unfolding_all rfl⟩

/-- Witness for C6: the amended characterisation applied to `2 J` over the
concrete registry. -/
theorem c6_witness :
    (⟨r"J", r"1 J", [⟨r"joule", r"2 joule"⟩, ⟨r"Nm", r"2 Nm"⟩, ⟨r"cal", r"250/523 cal"⟩]⟩ :
        DerivedUnit).conversions =
      (getCompatibleUnits mathjsUnits (r"J")).filterMap
        (fun cu => (evalTo mathjsUnits qJoule cu).map
          (fun v => (⟨cu, convToString v cu⟩ : Conv))) ++
      ((equivalentUnitsOf mathjsUnits qJoule).filter (fun u => u ≠ r"J")).filterMap
        (fun u => (evalTo mathjsUnits qJoule u).map
          (fun v => (⟨u, convToString v u⟩ : Conv))) :=
  (c6_amended mathjsUnits qJoule (r"J") (by decide)
    ⟨r"J", r"1 J", [⟨r"joule", r"2 joule"⟩, ⟨r"Nm", r"2 Nm"⟩, ⟨r"cal", r"250/523 cal"⟩]⟩
    (by
      rw [show findDerivedUnits mathjsUnits qJoule =
        [⟨r"J", r"1 J", [⟨r"joule", r"2 joule"⟩, ⟨r"Nm", r"2 Nm"⟩, ⟨r"cal", r"250/523 cal"⟩]⟩]
        from by with_unfolding_all rfl]
      exact List.mem_singleton.mpr rfl)).2.2

section DedupLemmas

lemma foldl_insertKey (l : List String) :
    ∀ acc : List String, l.foldl insertKey acc = acc ++ (dedupF l).filter (fun x => x ∉ acc) := by
  induction l with
  | nil => intro acc; simp [dedupF]
  | cons k ks ih =>
    intro acc
    rw [List.foldl_cons]
    by_cases hk : k ∈ acc
    · have hik : insertKey acc k = acc := by rw [insertKey, if_pos hk]
      have hd : (decide (k ∉ acc)) = false := by simp [hk]
      have hfe : ((dedupF ks).filter (fun x => x ≠ k)).filter (fun x => x ∉ acc) =
          (dedupF ks).filter (fun x => x ∉ acc) := by
        rw [List.filter_filter]
        apply List.filter_congr
        intro a _
        by_cases ha : a ∈ acc
        · simp [ha]
        · have hak : a ≠ k := fun he => ha (he ▸ hk)
          simp [ha, hak]
      rw [hik, ih acc, dedupF, List.filter_cons, hd]
      simp only [Bool.false_eq_true, if_false, hfe]
    · have hik : insertKey acc k = acc ++ [k] := by rw [insertKey, if_neg hk]
      have hd : (decide (k ∉ acc)) = true := by simp [hk]
      have hfe : (dedupF ks).filter (fun x => x ∉ acc ++ [k]) =
          ((dedupF ks).filter (fun x => x ≠ k)).filter (fun x => x ∉ acc) := by
        rw [List.filter_filter]
        apply List.filter_congr
        intro a _
        by_cases ha : a ∈ acc
        · simp [ha]
        · by_cases hak : a = k
          · simp [hak]
          · simp [ha, hak]
      rw [hik, ih (acc ++ [k]), dedupF, List.filter_cons, hd, hfe]
      simp only [if_true, List.append_assoc, List.singleton_append]

lemma groupKeys_eq (cs : List Conv) :
    groupKeys cs = dedupF (cs.map (fun c => firstWord c.value)) := by
  have h2 := List.foldl_map (fun c : Conv => firstWord c.value) insertKey cs
    ([] : List String)
  rw [groupKeys, ← h2, foldl_insertKey]
  simp

lemma dedupF_nodup : ∀ l : List String, (dedupF l).Nodup
  | [] => List.nodup_nil
  | k :: ks => by
    rw [dedupF]
    refine List.nodup_cons.mpr ⟨?_, (dedupF_nodup ks).filter _⟩
    intro hmem
    have := List.of_mem_filter hmem
    simp at this

lemma mem_groupKeys (cs : List Conv) (k : String) :
    k ∈ groupKeys cs ↔ k ∈ cs.map (fun c => firstWord c.value) := by
  rw [groupKeys_eq, mem_dedupF]

lemma groupFor_numPart (cs : List Conv) (k : String) (res : Conv)
    (h : res ∈ groupFor cs k) : firstWord res.value = k := by
  rw [groupFor, List.mem_filter] at h
  exact beq_iff_eq.mp h.2

lemma groupFor_ne_nil (cs : List Conv) (k : String)
    (hk : k ∈ cs.map (fun c => firstWord c.value)) : groupFor cs k ≠ [] := by
  obtain ⟨c, hc, he⟩ := List.mem_map.mp hk
  have : c ∈ groupFor cs k := by
    rw [groupFor]
    exact List.mem_filter.mpr ⟨hc, beq_iff_eq.mpr he⟩
  exact List.ne_nil_of_mem this

lemma pickFold :
    ∀ (l : List Conv) (a : Conv),
      (l.foldl pickStep a = a ∧ ∀ x ∈ l, x.unit.length ≤ a.unit.length) ∨
      (∃ pre suf, l = pre ++ l.foldl pickStep a :: suf ∧
        a.unit.length < (l.foldl pickStep a).unit.length ∧
        (∀ x ∈ pre, x.unit.length < (l.foldl pickStep a).unit.length) ∧
        ∀ x ∈ suf, x.unit.length ≤ (l.foldl pickStep a).unit.length) := by
  intro l
  induction l with
  | nil => intro a; exact Or.inl ⟨rfl, by simp⟩
  | cons b bs ih =>
    intro a
    rw [List.foldl_cons]
    by_cases hb : b.unit.length > a.unit.length
    · rw [show pickStep a b = b from by rw [pickStep, if_pos hb]]
      rcases ih b with ⟨he, hle⟩ | ⟨pre, suf, hsplit, hlt, hpre, hsuf⟩
      · refine Or.inr ⟨[], bs, ?_, ?_, ?_, ?_⟩
        · rw [he, List.nil_append]
        · rw [he]; exact hb
        · intro x hx; exact absurd hx (List.not_mem_nil x)
        · rw [he]; exact hle
      · refine Or.inr ⟨b :: pre, suf, ?_, ?_, ?_, ?_⟩
        · rw [List.cons_append, ← hsplit]
        · exact lt_trans hb hlt
        · intro x hx
          rcases List.mem_cons.mp hx with h1 | h1
          · subst h1; exact hlt
          · exact hpre x h1
        · exact hsuf
    · rw [show pickStep a b = a from by rw [pickStep, if_neg hb]]
      have hble : b.unit.length ≤ a.unit.length := by omega
      rcases ih a with ⟨he, hle⟩ | ⟨pre, suf, hsplit, hlt, hpre, hsuf⟩
      · refine Or.inl ⟨he, ?_⟩
        intro x hx
        rcases List.mem_cons.mp hx with h1 | h1
        · subst h1; exact hble
        · exact hle x h1
      · refine Or.inr ⟨b :: pre, suf, ?_, hlt, ?_, hsuf⟩
        · rw [List.cons_append, ← hsplit]
        · intro x hx
          rcases List.mem_cons.mp hx with h1 | h1
          · subst h1; omega
          · exact hpre x h1

lemma pickLongest_spec (g : List Conv) (res : Conv) (h : pickLongest g = some res) :
    res ∈ g ∧ (∀ x ∈ g, x.unit.length ≤ res.unit.length) ∧
    ∃ pre suf, g = pre ++ res :: suf ∧ ∀ x ∈ pre, x.unit.length < res.unit.length := by
  cases g with
  | nil => exact absurd h (by simp [pickLongest])
  | cons c cs =>
    rw [pickLongest, Option.some.injEq] at h
    rcases pickFold cs c with ⟨he, hle⟩ | ⟨pre, suf, hsplit, hlt, hpre, hsuf⟩
    · have hrc : res = c := by rw [← h, he]
      subst hrc
      refine ⟨List.mem_cons_self res cs, ?_, [], cs, by rw [List.nil_append], ?_⟩
      · intro x hx
        rcases List.mem_cons.mp hx with h1 | h1
        · subst h1; exact le_refl _
        · exact hle x h1
      · intro x hx; exact absurd hx (List.not_mem_nil x)
    · rw [h] at hsplit hlt hpre hsuf
      refine ⟨?_, ?_, c :: pre, suf, ?_, ?_⟩
      · exact List.mem_cons_of_mem c
          (hsplit ▸ List.mem_append.mpr (Or.inr (List.mem_cons_self res suf)))
      · intro x hx
        rcases List.mem_cons.mp hx with h1 | h1
        · subst h1; exact le_of_lt hlt
        · rw [hsplit] at h1
          rcases List.mem_append.mp h1 with h2 | h2
          · exact le_of_lt (hpre x h2)
          · rcases List.mem_cons.mp h2 with h3 | h3
            · subst h3; exact le_refl _
            · exact hsuf x h3
      · rw [List.cons_append, ← hsplit]
      · intro x hx
        rcases List.mem_cons.mp hx with h1 | h1
        · subst h1; exact hlt
        · exact hpre x h1

end DedupLemmas

lemma filterMap_eq_self (f : String → Option String) :
    ∀ ks : List String, (∀ k ∈ ks, f k = some k) → ks.filterMap f = ks := by
  intro ks
  induction ks with
  | nil => intro _; rfl
  | cons k ks ih =>
    intro h
    simp only [List.filterMap_cons, h k (List.mem_cons_self k ks),
      ih (fun x hx => h x (List.mem_cons_of_mem k hx))]

lemma removeDup_map_keys (cs : List Conv) :
    (removeDuplicateConversions cs).map (fun c => firstWord c.value) = groupKeys cs := by
  rw [removeDuplicateConversions, List.map_filterMap]
  apply filterMap_eq_self
  intro k hk
  have hkm : k ∈ cs.map (fun c => firstWord c.value) := (mem_groupKeys cs k).mp hk
  cases hg : pickLongest (groupFor cs k) with
  | none =>
    have hne := groupFor_ne_nil cs k hkm
    cases hgf : groupFor cs k with
    | nil => exact absurd hgf hne
    | cons c cs2 =>
      rw [hgf, pickLongest] at hg
      exact absurd hg (by simp)
  | some res =>
    have hmem : res ∈ groupFor cs k := (pickLongest_spec _ res hg).1
    simp [groupFor_numPart cs k res hmem]

/-- Claim C7 (amended): the deduplicator keeps exactly one option per
distinct leading numeral *string*, in first-occurrence order of the distinct
numerals; each kept option belongs to the input, has maximal unit-name
length within its group, and is the first of its group attaining that
length.  (Numerals that are numerically equal but textually different are
not merged.) -/
theorem c7_amended (cs : List Conv) :
    ((removeDuplicateConversions cs).map (fun c => firstWord c.value) =
        dedupF (cs.map (fun c => firstWord c.value)) ∧
      ((removeDuplicateConversions cs).map (fun c => firstWord c.value)).Nodup) ∧
    ∀ o ∈ removeDuplicateConversions cs,
      o ∈ cs ∧
      (∀ x ∈ cs, firstWord x.value = firstWord o.value → x.unit.length ≤ o.unit.length) ∧
      ∃ pre suf, groupFor cs (firstWord o.value) = pre ++ o :: suf ∧
        ∀ x ∈ pre, x.unit.length < o.unit.length := by
  refine ⟨⟨?_, ?_⟩, ?_⟩
  · rw [removeDup_map_keys, groupKeys_eq]
  · rw [removeDup_map_keys, groupKeys_eq]
    exact dedupF_nodup _
  · intro o ho
    rw [removeDuplicateConversions] at ho
    obtain ⟨k, hk, hpk⟩ := List.mem_filterMap.mp ho
    obtain ⟨hmem, hmax, pre, suf, hsplit, hpre⟩ := pickLongest_spec _ o hpk
    have hok : firstWord o.value = k := groupFor_numPart cs k o hmem
    have hmem' : o ∈ cs := by
      rw [groupFor] at hmem
      exact List.mem_of_mem_filter hmem
    refine ⟨hmem', ?_, ?_⟩
    · intro x hx he
      have hxg : x ∈ groupFor cs k := by
        rw [groupFor]
        exact List.mem_filter.mpr ⟨hx, beq_iff_eq.mpr (by rw [he, hok])⟩
      exact hmax x hxg
    · rw [hok]
      exact ⟨pre, suf, hsplit, hpre⟩

/-- Counterexample to C7 as stated: two options whose leading numerals are
numerically both one half but textually `0.5` and `0.50` are both kept, so
the deduplicator can return two options with numerically equal leading
magnitudes. -/
theorem c7_counterexample :
    removeDuplicateConversions dupDemo = dupDemo ∧
    decToRat (firstWord (r"0.5 m")) = some (1 / 2) ∧
    decToRat (firstWord (r"0.50 m")) = some (1 / 2) ∧
    firstWord (r"0.5 m") ≠ firstWord (r"0.50 m") :=
  ⟨by decide, by with_unfolding_all rfl, by with_unfolding_all rfl, by decide⟩

/-- Witness for C7: the key characterisation applied to a list with a
string-duplicate numeral. -/
theorem c7_witness :
    (removeDuplicateConversions dupDemo2).map (fun c => firstWord c.value) =
      dedupF (dupDemo2.map (fun c => firstWord c.value)) :=
  (c7_amended dupDemo2).1.1

end Playground
